import Mathlib

/-!
# Verification of the BlockModPy routing core

A shallow embedding of the BlockModPy library's data model (blocks, sockets,
connectors, segments) and of its routing algorithms (`socket_start_line`,
`adjust_connector`, `check_names`, the segment-drag update and the
segment-merge pass), with theorems settling the specification claims.

Floating-point values of the source are modelled as rational numbers; the
grid-relative near-zero test is carried over literally.
-/

namespace BlockModPy

/-- Axis of a socket or of a connector segment (`Qt.Horizontal` / `Qt.Vertical`). -/
inductive Orientation where
  | horizontal
  | vertical
deriving DecidableEq, Repr

/-- A 2D point with rational coordinates (models `QPointF`). -/
structure QPointF where
  x : ℚ
  y : ℚ
deriving DecidableEq, Repr

/-- Pointwise addition of points, as `QPointF + QPointF`. -/
def QPointF.add (a b : QPointF) : QPointF := ⟨a.x + b.x, a.y + b.y⟩

/-- A 2D size (models `QSizeF`). -/
structure QSizeF where
  width : ℚ
  height : ℚ
deriving DecidableEq, Repr

/-- A line between two points (models `QLineF`). -/
structure QLineF where
  p1 : QPointF
  p2 : QPointF
deriving DecidableEq, Repr

namespace Globals

/-- Constant `Globals.GridSpacing` from `globals.py`. -/
def GridSpacing : ℚ := 8

/-- Constant `Globals.InvisibleLabel` from `globals.py`: the helper-block sentinel name. -/
def InvisibleLabel : String := "[(-I am invisible-)]"

/-- Predicate `Globals.near_zero` from `globals.py`:
`abs(grid_distance / Globals.GridSpacing) < 1e-6`. -/
def near_zero (grid_distance : ℚ) : Bool :=
  decide (|grid_distance / GridSpacing| < 1 / 1000000)

end Globals

/-- The four derived socket directions (`Socket.Direction` in `socket.py`). -/
inductive SocketDirection where
  | left
  | right
  | top
  | bottom
deriving DecidableEq, Repr

/-- A socket, as in `socket.py`: name, block-local position, orientation,
inlet flag. -/
structure Socket where
  m_name : String
  m_pos : QPointF
  m_orientation : Orientation
  m_inlet : Bool
deriving DecidableEq, Repr

/-- Method `Socket.direction` from `socket.py`: Horizontal sockets are Left when
`x == 0` and Right otherwise; Vertical sockets are Top when `y == 0` and
Bottom otherwise. -/
def Socket.direction (s : Socket) : SocketDirection :=
  if s.m_orientation = Orientation.horizontal then
    if s.m_pos.x = 0 then SocketDirection.left else SocketDirection.right
  else
    if s.m_pos.y = 0 then SocketDirection.top else SocketDirection.bottom

/-- The `Socket.__eq__` branch comparing two `Socket` instances: compares
names only. -/
def Socket.eqSocket (a b : Socket) : Bool := a.m_name == b.m_name

/-- The `Socket.__eq__` branch comparing a `Socket` against a `str`:
compares the string against the socket's name. -/
def Socket.eqString (a : Socket) (other : String) : Bool := a.m_name == other

/-- One orthogonal piece of a connector path (`Connector.Segment`). -/
structure Segment where
  m_direction : Orientation
  m_offset : ℚ
deriving DecidableEq, Repr

/-- A connector, as in `connector.py` (only the serialized routing fields;
display text, line width and color are not read by any modelled routine). -/
structure Connector where
  m_name : String
  m_source_socket : String
  m_target_socket : String
  m_segments : List Segment
deriving DecidableEq, Repr

/-- A block, as in `block.py`. `m_show_pixmap` models the only key of
`m_properties` that the XML code reads or writes (`"ShowPixmap"`). -/
structure Block where
  m_name : String
  m_pos : QPointF
  m_size : QSizeF
  m_sockets : List Socket
  m_show_pixmap : Option Bool
deriving DecidableEq, Repr

/-- A network, as in `network.py`. -/
structure Network where
  m_blocks : List Block
  m_connectors : List Connector
deriving DecidableEq, Repr

/-- Method `Block.socket_start_line` from `block.py`: for the invisible helper block
the line degenerates to the translated socket position; otherwise the line
starts at the midpoint of the edge selected by the socket's orientation and
inlet flag and extends two grid cells outward. -/
def Block.socket_start_line (b : Block) (s : Socket) : QLineF :=
  if b.m_name = Globals.InvisibleLabel then
    let start_point := s.m_pos.add b.m_pos
    ⟨start_point, start_point⟩
  else if s.m_orientation = Orientation.horizontal then
    let base_x : ℚ := if s.m_inlet then 0 else b.m_size.width
    let dir : ℚ := if s.m_inlet then -1 else 1
    let base_pos : QPointF := ⟨base_x, b.m_size.height / 2⟩
    let end_offset : QPointF := ⟨Globals.GridSpacing * 2 * dir, 0⟩
    ⟨base_pos.add b.m_pos, (base_pos.add end_offset).add b.m_pos⟩
  else
    let base_y : ℚ := if s.m_inlet then 0 else b.m_size.height
    let dir : ℚ := if s.m_inlet then -1 else 1
    let base_pos : QPointF := ⟨b.m_size.width / 2, base_y⟩
    let end_offset : QPointF := ⟨0, Globals.GridSpacing * 2 * dir⟩
    ⟨base_pos.add b.m_pos, (base_pos.add end_offset).add b.m_pos⟩

/-- Python's `str.strip()` on a character list: drop whitespace from both
ends. -/
def stripChars (cs : List Char) : List Char :=
  ((cs.dropWhile Char.isWhitespace).reverse.dropWhile Char.isWhitespace).reverse

/-- Python's `str.strip()`. -/
def pyStrip (s : String) : String := String.mk (stripChars s.toList)

/-- Method `Network._split_flat_name`: split a flat reference at the first dot and
strip whitespace from both parts; error when no dot is present. -/
def splitFlatName (flat_name : String) : Except String (String × String) :=
  if flat_name.toList.contains '.' then
    let pre := flat_name.toList.takeWhile (fun c => c ≠ '.')
    let post := (flat_name.toList.dropWhile (fun c => c ≠ '.')).tail
    Except.ok (pyStrip (String.mk pre), pyStrip (String.mk post))
  else
    Except.error ("Bad flat name " ++ flat_name ++ ", expected block.socket format.")

/-- Method `Network.lookup_block_and_socket`: resolve a flat reference to the first
block of that name and the first socket of that name within the block. -/
def Network.lookup_block_and_socket (net : Network) (flat_name : String) :
    Except String (Block × Socket) :=
  match splitFlatName flat_name with
  | Except.error e => Except.error e
  | Except.ok (block_name, socket_name) =>
    match net.m_blocks.find? (fun b => b.m_name == block_name) with
    | none => Except.error "Invalid flat name."
    | some block =>
      match block.m_sockets.find? (fun s => s.m_name == socket_name) with
      | none => Except.error "Invalid flat name."
      | some socket => Except.ok (block, socket)

/-- Sum of the offsets of the segments of a given direction (the subtraction
loop of `adjust_connector` accumulates exactly this per axis). -/
def sumDir (d : Orientation) : List Segment → ℚ
  | [] => 0
  | s :: rest => (if s.m_direction = d then s.m_offset else 0) + sumDir d rest

/-- The for/else correction loop of `adjust_connector`: add `delta` to the
first segment of direction `d`, or append a new segment when none exists. -/
def addToFirstOrAppend (d : Orientation) (delta : ℚ) : List Segment → List Segment
  | [] => [⟨d, delta⟩]
  | s :: rest =>
    if s.m_direction = d then { s with m_offset := s.m_offset + delta } :: rest
    else s :: addToFirstOrAppend d delta rest

/-- Index of the first segment of direction `d` (length of the list when no
such segment exists); the position `addToFirstOrAppend` modifies. -/
def firstDirIdx (d : Orientation) : List Segment → ℕ
  | [] => 0
  | s :: rest => if s.m_direction = d then 0 else firstDirIdx d rest + 1

/-- Method `Network.adjust_connector` from `network.py`: resolve both sockets,
compute the residual between the extension-line endpoints and the segment
sums, then correct the vertical axis and afterwards the horizontal axis. -/
def Network.adjust_connector (net : Network) (connector : Connector) :
    Except String Connector :=
  match net.lookup_block_and_socket connector.m_source_socket with
  | Except.error e => Except.error e
  | Except.ok (source_block, source_socket) =>
    match net.lookup_block_and_socket connector.m_target_socket with
    | Except.error e => Except.error e
    | Except.ok (target_block, target_socket) =>
      let start_line := source_block.socket_start_line source_socket
      let end_line := target_block.socket_start_line target_socket
      let dx := end_line.p2.x - start_line.p2.x -
        sumDir Orientation.horizontal connector.m_segments
      let dy := end_line.p2.y - start_line.p2.y -
        sumDir Orientation.vertical connector.m_segments
      let segs1 := if Globals.near_zero dy then connector.m_segments
        else addToFirstOrAppend Orientation.vertical dy connector.m_segments
      let segs2 := if Globals.near_zero dx then segs1
        else addToFirstOrAppend Orientation.horizontal dx segs1
      Except.ok { connector with m_segments := segs2 }

/-- Method `Network.adjust_connectors` body: adjust each connector in turn; the
`except ... raise` of the source re-raises the first failure, so processing
stops there and the failing connector and all later ones are returned
unmodified together with the first error. -/
def Network.adjust_connectors_go (net : Network) :
    List Connector → List Connector × Option String
  | [] => ([], none)
  | c :: rest =>
    match net.adjust_connector c with
    | Except.error e => (c :: rest, some e)
    | Except.ok c2 =>
      let r := net.adjust_connectors_go rest
      (c2 :: r.1, r.2)

/-- Method `Network.adjust_connectors`: the final network state (connectors adjusted
up to the first failure) and the propagated error, if any. -/
def Network.adjust_connectors (net : Network) : Network × Option String :=
  let r := net.adjust_connectors_go net.m_connectors
  ({ net with m_connectors := r.1 }, r.2)

/-- Modelled from the spec sentence cited by claim C2: the extension line
would begin at the socket's anchor (stored position translated by the block
position) and project two grid cells outward in the socket's derived
direction. The source's `socket_start_line` is compared against this. -/
def specExtensionLine (b : Block) (s : Socket) : QLineF :=
  let anchor := s.m_pos.add b.m_pos
  let off : QPointF :=
    match s.direction with
    | SocketDirection.left => ⟨-(2 * Globals.GridSpacing), 0⟩
    | SocketDirection.right => ⟨2 * Globals.GridSpacing, 0⟩
    | SocketDirection.top => ⟨0, -(2 * Globals.GridSpacing)⟩
    | SocketDirection.bottom => ⟨0, 2 * Globals.GridSpacing⟩
  ⟨anchor, anchor.add off⟩

/-- Outlet socket sitting at height 10 of the left edge of its block: the
spec's formula and the code disagree on its extension line. -/
def socketC2 : Socket := ⟨"o", ⟨0, 10⟩, Orientation.horizontal, false⟩

/-- Host block for `socketC2`. -/
def blockC2 : Block := ⟨"A", ⟨0, 0⟩, ⟨100, 50⟩, [socketC2], none⟩

/-- The outlet socket of block A in the two-block scenario. -/
def socketAOut : Socket := ⟨"out", ⟨100, 25⟩, Orientation.horizontal, false⟩

/-- The inlet socket of block B in the two-block scenario. -/
def socketBIn : Socket := ⟨"in", ⟨0, 25⟩, Orientation.horizontal, true⟩

/-- Block A (100×50 at the origin) of the two-block scenario. -/
def blockA : Block := ⟨"A", ⟨0, 0⟩, ⟨100, 50⟩, [socketAOut], none⟩

/-- Block B (100×50 at (300,0)) of the two-block scenario. -/
def blockB : Block := ⟨"B", ⟨300, 0⟩, ⟨100, 50⟩, [socketBIn], none⟩

/-- The connector from A's outlet to B's inlet with zero initial segments. -/
def connectorAB : Connector := ⟨"con", "A.out", "B.in", []⟩

/-- The two-block network of the scenario of claim C3. -/
def netC3 : Network := ⟨[blockA, blockB], [connectorAB]⟩

/-- The adjusted connector of the two-block scenario. -/
def connectorAB2 : Connector :=
  { connectorAB with m_segments := [⟨Orientation.horizontal, 168⟩] }

/-- The conditional correction of one axis, as it appears in
`adjust_connector`. -/
def axisCorrection (d : Orientation) (delta : ℚ) (l : List Segment) : List Segment :=
  if Globals.near_zero delta then l else addToFirstOrAppend d delta l

/-- The full segment rewrite of `adjust_connector`: the vertical correction
followed by the horizontal correction, both against the residuals of the
original list. -/
def adjustedSegments (dxTarget dyTarget : ℚ) (l : List Segment) : List Segment :=
  axisCorrection Orientation.horizontal
    (dxTarget - sumDir Orientation.horizontal l)
    (axisCorrection Orientation.vertical
      (dyTarget - sumDir Orientation.vertical l) l)

/-- A connector whose source block name does not exist. -/
def connectorBad : Connector := ⟨"bad", "X.o", "B.in", []⟩

/-- A network whose first connector fails to resolve while the second would
need adjustment. -/
def netC4 : Network := ⟨[blockA, blockB], [connectorBad, connectorAB]⟩

/-- The default segment used to model Python list indexing (never read at an
out-of-range index by the modelled algorithms under their preconditions). -/
def dfltSeg : Segment := ⟨Orientation.horizontal, 0⟩

/-- The leftward walk of `ConnectorSegmentItem._update_segments`: starting
just below the dragged index, absorb the pending deltas into the nearest
segment of the matching direction. -/
def walkLeft : List Segment → ℕ → ℚ → ℚ → List Segment × ℚ × ℚ
  | segs, 0, dx, dy => (segs, dx, dy)
  | segs, i + 1, dx, dy =>
    if Globals.near_zero dx = true ∧ Globals.near_zero dy = true then (segs, dx, dy)
    else
      let seg := segs.getD i dfltSeg
      let segs2 :=
        if Globals.near_zero dx = false ∧ seg.m_direction = Orientation.horizontal then
          segs.set i { seg with m_offset := seg.m_offset + dx }
        else if Globals.near_zero dy = false ∧ seg.m_direction = Orientation.vertical then
          segs.set i { seg with m_offset := seg.m_offset + dy }
        else segs
      let dx2 := if Globals.near_zero dx = false ∧
        seg.m_direction = Orientation.horizontal then 0 else dx
      let dy2 := if Globals.near_zero dy = false ∧
        seg.m_direction = Orientation.vertical then 0 else dy
      walkLeft segs2 i dx2 dy2

/-- The insertion step of `_update_segments`: a remaining delta is folded
into the dragged segment when its direction matches, otherwise a new segment
is inserted at position 0 of the list and the dragged index shifts up. -/
def insertIfNeeded (segs : List Segment) (idx : ℕ) (dx dy : ℚ) :
    List Segment × ℕ :=
  let p1 :=
    if Globals.near_zero dx = false then
      let seg := segs.getD idx dfltSeg
      if seg.m_direction = Orientation.horizontal then
        (segs.set idx { seg with m_offset := seg.m_offset + dx }, idx)
      else (⟨Orientation.horizontal, dx⟩ :: segs, idx + 1)
    else (segs, idx)
  if Globals.near_zero dy = false then
    let seg := p1.1.getD p1.2 dfltSeg
    if seg.m_direction = Orientation.vertical then
      (p1.1.set p1.2 { seg with m_offset := seg.m_offset + dy }, p1.2)
    else (⟨Orientation.vertical, dy⟩ :: p1.1, p1.2 + 1)
  else p1

/-- The rightward walk of `_update_segments`: absorb the deltas with inverted
sign into the nearest matching segment to the right. -/
def walkRight : ℕ → List Segment → ℕ → ℚ → ℚ → List Segment × ℚ × ℚ
  | 0, segs, _, dx, dy => (segs, dx, dy)
  | fuel + 1, segs, i, dx, dy =>
    if i + 1 < segs.length then
      if Globals.near_zero dx = true ∧ Globals.near_zero dy = true then (segs, dx, dy)
      else
        let seg := segs.getD (i + 1) dfltSeg
        let segs2 :=
          if Globals.near_zero dx = false ∧ seg.m_direction = Orientation.horizontal then
            segs.set (i + 1) { seg with m_offset := seg.m_offset - dx }
          else if Globals.near_zero dy = false ∧
            seg.m_direction = Orientation.vertical then
            segs.set (i + 1) { seg with m_offset := seg.m_offset - dy }
          else segs
        let dx2 := if Globals.near_zero dx = false ∧
          seg.m_direction = Orientation.horizontal then 0 else dx
        let dy2 := if Globals.near_zero dy = false ∧
          seg.m_direction = Orientation.vertical then 0 else dy
        walkRight fuel segs2 (i + 1) dx2 dy2
    else (segs, dx, dy)

/-- Method `ConnectorSegmentItem._update_segments` from `connector_segment_item.py`:
left walk, insertion step, right walk (with the deltas reset to the move
distance), then trailing appends for any remaining delta. Returns the new
segment list and the new dragged index. -/
def update_segments (segs : List Segment) (seg_idx : ℕ) (dx dy : ℚ) :
    List Segment × ℕ :=
  let w := walkLeft segs seg_idx dx dy
  let ins := insertIfNeeded w.1 seg_idx w.2.1 w.2.2
  let r := walkRight ins.1.length ins.1 ins.2 dx dy
  let s4 := if Globals.near_zero r.2.1 = false then
    r.1 ++ [⟨Orientation.horizontal, -r.2.1⟩] else r.1
  let s5 := if Globals.near_zero r.2.2 = false then
    s4 ++ [⟨Orientation.vertical, -r.2.2⟩] else s4
  (s5, ins.2)

/-- The per-block socket-name loop of `check_names`: error on the first
socket name already seen. -/
def checkSockets : List Socket → List String → Except String Unit
  | [], _ => Except.ok ()
  | s :: rest, seen =>
    if s.m_name ∈ seen then
      Except.error ("Duplicate Socket ID name " ++ s.m_name)
    else checkSockets rest (s.m_name :: seen)

/-- The block loop of `check_names`: reject a name containing the separator
or already seen, then check the block's socket names. -/
def checkBlocks : List Block → List String → Except String Unit
  | [], _ => Except.ok ()
  | b :: rest, seen =>
    if b.m_name.toList.contains '.' then
      Except.error ("Invalid Block ID name " ++ b.m_name)
    else if b.m_name ∈ seen then
      Except.error ("Duplicate Block ID name " ++ b.m_name)
    else
      match checkSockets b.m_sockets [] with
      | Except.error e => Except.error e
      | Except.ok _ => checkBlocks rest (b.m_name :: seen)

/-- The connector loop of `check_names`: resolve both references, check the
polarities, and reject a target reference string already connected. -/
def checkConnectors (net : Network) : List Connector → List String → Except String Unit
  | [], _ => Except.ok ()
  | c :: rest, connected =>
    match net.lookup_block_and_socket c.m_source_socket with
    | Except.error e => Except.error e
    | Except.ok (_, source_socket) =>
      match net.lookup_block_and_socket c.m_target_socket with
      | Except.error e => Except.error e
      | Except.ok (_, target_socket) =>
        if source_socket.m_inlet then
          Except.error ("Invalid source socket " ++ c.m_source_socket)
        else if target_socket.m_inlet = false then
          Except.error ("Invalid target socket " ++ c.m_target_socket)
        else if c.m_target_socket ∈ connected then
          Except.error ("Target socket " ++ c.m_target_socket ++ " connected twice")
        else checkConnectors net rest (c.m_target_socket :: connected)

/-- Method `Network.check_names` from `network.py`: the block/socket name checks
followed by the connector topology checks. -/
def Network.check_names (net : Network) : Except String Unit :=
  match checkBlocks net.m_blocks [] with
  | Except.error e => Except.error e
  | Except.ok _ => checkConnectors net net.m_connectors []

/-- The source reference resolves and the socket is an outlet. -/
def resolvesToOutlet (net : Network) (ref : String) : Prop :=
  ∃ pr : Block × Socket,
    net.lookup_block_and_socket ref = Except.ok pr ∧ pr.2.m_inlet = false

/-- The target reference resolves and the socket is an inlet. -/
def resolvesToInlet (net : Network) (ref : String) : Prop :=
  ∃ pr : Block × Socket,
    net.lookup_block_and_socket ref = Except.ok pr ∧ pr.2.m_inlet = true

/-- Modelled from claim C5's words: the validation conditions the claim says
`check_names` enforces, including the rejection of empty block names and the
resolved-socket reading of the duplicate-inlet rule. -/
def specNamesViolation (net : Network) : Prop :=
  (∃ b ∈ net.m_blocks, b.m_name = "") ∨
  ¬ (net.m_blocks.map Block.m_name).Nodup ∨
  (∃ b ∈ net.m_blocks, b.m_name.toList.contains '.' = true) ∨
  (∃ b ∈ net.m_blocks, ¬ (b.m_sockets.map Socket.m_name).Nodup) ∨
  (∃ c ∈ net.m_connectors, ¬ resolvesToOutlet net c.m_source_socket) ∨
  (∃ c ∈ net.m_connectors, ¬ resolvesToInlet net c.m_target_socket) ∨
  (∃ i j : Fin net.m_connectors.length, i ≠ j ∧
    ∃ pr : Block × Socket,
      net.lookup_block_and_socket (net.m_connectors.get i).m_target_socket =
        Except.ok pr ∧
      net.lookup_block_and_socket (net.m_connectors.get j).m_target_socket =
        Except.ok pr)

/-- A network with a single block whose name is empty. -/
def netC5 : Network := ⟨[⟨"", ⟨0, 0⟩, ⟨100, 50⟩, [], none⟩], []⟩

/-- The in-scan merge of `merge_connector_segments`: when `i > 0` and the
segments at `i-1` and `i` share a direction, fold the offset of `i` into
`i-1` and zero the offset at `i`. -/
def mergeAt (segs : List Segment) (i : ℕ) : List Segment :=
  let prev := segs.getD (i - 1) dfltSeg
  let cur := segs.getD i dfltSeg
  if 0 < i ∧ prev.m_direction = cur.m_direction then
    (segs.set (i - 1) { prev with m_offset := prev.m_offset + cur.m_offset }).set i
      { cur with m_offset := 0 }
  else segs

/-- The `for i in range(len(...))` scan of `merge_connector_segments`: merge
adjacent same-direction pairs while walking right; stop (`break`) at the
first near-zero offset, otherwise stop at the last index. Returns the
updated list and the final value of `i` — which, as in the source, is the
last index of the list when no break occurred. -/
def scanFrom : ℕ → List Segment → ℕ → List Segment × ℕ
  | 0, segs, i => (segs, i)
  | fuel + 1, segs, i =>
    let segs2 := mergeAt segs i
    if Globals.near_zero ((segs2.getD i dfltSeg).m_offset) = true then (segs2, i)
    else if i + 1 < segs.length then scanFrom fuel segs2 (i + 1)
    else (segs2, i)

/-- The outer `while` of `SceneManager.merge_connector_segments`, acting on
the connector's segment list (the paired graphics-item bookkeeping does not
feed back into the list). The ported no-break test `i == len(...)` never
fires — a Python `for` leaves `i` at `len - 1` — so every pass removes a
segment. -/
def mergeLoop : ℕ → List Segment → List Segment
  | 0, segs => segs
  | fuel + 1, segs =>
    if segs.length = 0 then segs
    else
      let r := scanFrom segs.length segs 0
      let s1 := r.1
      let i := r.2
      if i = s1.length then s1
      else if i = 0 then mergeLoop fuel (s1.drop 1)
      else if i = s1.length - 1 then mergeLoop fuel s1.dropLast
      else
        let s2 := s1.eraseIdx i
        let s3 :=
          if (s2.getD (i - 1) dfltSeg).m_direction =
              (s2.getD i dfltSeg).m_direction then
            (s2.set (i - 1) { s2.getD (i - 1) dfltSeg with
              m_offset := (s2.getD (i - 1) dfltSeg).m_offset +
                (s2.getD i dfltSeg).m_offset }).eraseIdx i
          else s2
        mergeLoop fuel s3

/-- Method `SceneManager.merge_connector_segments` restricted to the segment list. -/
def merge_connector_segments (segs : List Segment) : List Segment :=
  mergeLoop segs.length segs

/-- The XML record a `Segment` serializes to (`Orientation` and `Offset`
elements, both always written). -/
structure SegmentXml where
  orientation : Orientation
  offset : ℚ
deriving DecidableEq, Repr

/-- The XML record a `Socket` serializes to (name attribute, `Position`,
`Orientation` and `Inlet` elements, all always written). -/
structure SocketXml where
  name : String
  position : QPointF
  orientation : Orientation
  inlet : Bool
deriving DecidableEq, Repr

/-- The XML record a `Block` serializes to: the `Sockets` element exists
only when the socket list is nonempty, the `Properties` element only when a
`ShowPixmap` entry exists; `Size` is encoded through `_encode_point`. -/
structure BlockXml where
  name : String
  position : QPointF
  size : QPointF
  sockets : Option (List SocketXml)
  properties : Option Bool
deriving DecidableEq, Repr

/-- The XML record a `Connector` serializes to: `Source`, `Target` and
`Segments` elements are written only for truthy (nonempty) values. -/
structure ConnectorXml where
  name : String
  source : Option String
  target : Option String
  segments : Option (List SegmentXml)
deriving DecidableEq, Repr

/-- The XML document a `Network` serializes to: `Blocks` and `Connectors`
sections exist only when nonempty. -/
structure NetworkXml where
  blocks : Option (List BlockXml)
  connectors : Option (List ConnectorXml)
deriving DecidableEq, Repr

/-- Method `Connector.Segment.write_xml`. -/
def Segment.write_xml (s : Segment) : SegmentXml := ⟨s.m_direction, s.m_offset⟩

/-- Method `Connector.Segment.read_xml` on a segment record. -/
def Segment.read_xml (r : SegmentXml) : Segment := ⟨r.orientation, r.offset⟩

/-- Method `Socket.write_xml`. -/
def Socket.write_xml (s : Socket) : SocketXml :=
  ⟨s.m_name, s.m_pos, s.m_orientation, s.m_inlet⟩

/-- Method `Socket.read_xml` on a socket record. -/
def Socket.read_xml (r : SocketXml) : Socket :=
  ⟨r.name, r.position, r.orientation, r.inlet⟩

/-- Method `Block.write_xml`: position and size always, sockets only when present,
properties only when `ShowPixmap` is set. -/
def Block.write_xml (b : Block) : BlockXml :=
  ⟨b.m_name, b.m_pos, ⟨b.m_size.width, b.m_size.height⟩,
    if b.m_sockets.isEmpty then none else some (b.m_sockets.map Socket.write_xml),
    b.m_show_pixmap⟩

/-- Method `Block.read_xml` on a block record: absent sockets leave the list empty;
absent properties leave the bag empty. -/
def Block.read_xml (r : BlockXml) : Block :=
  ⟨r.name, r.position, ⟨r.size.x, r.size.y⟩,
    (r.sockets.getD []).map Socket.read_xml, r.properties⟩

/-- Method `Connector.write_xml`: source, target and segments only when truthy. -/
def Connector.write_xml (c : Connector) : ConnectorXml :=
  ⟨c.m_name,
    if c.m_source_socket = "" then none else some c.m_source_socket,
    if c.m_target_socket = "" then none else some c.m_target_socket,
    if c.m_segments.isEmpty then none
      else some (c.m_segments.map Segment.write_xml)⟩

/-- Method `Connector.read_xml` on a connector record. -/
def Connector.read_xml (r : ConnectorXml) : Connector :=
  ⟨r.name, r.source.getD "", r.target.getD "",
    (r.segments.getD []).map Segment.read_xml⟩

/-- Method `Network.write_xml`: the Blocks and Connectors sections only when
nonempty. -/
def Network.write_xml (net : Network) : NetworkXml :=
  ⟨if net.m_blocks.isEmpty then none
      else some (net.m_blocks.map Block.write_xml),
    if net.m_connectors.isEmpty then none
      else some (net.m_connectors.map Connector.write_xml)⟩

/-- Method `Network.read_xml` into a fresh network. -/
def Network.read_xml (r : NetworkXml) : Network :=
  ⟨(r.blocks.getD []).map Block.read_xml,
    (r.connectors.getD []).map Connector.read_xml⟩

/-- C2 (counterexample): for a non-helper block carrying an outlet socket at
position (0,10) of its left edge, the extension line computed by
`socket_start_line` is the line from (100,25) to (116,25) — the right-edge
midpoint chosen by the inlet flag — and not the line from the socket's
anchor (0,10) two grid cells to the left that the claim requires. -/
theorem C2_counterexample :
    blockC2.m_name ≠ Globals.InvisibleLabel ∧
    blockC2.socket_start_line socketC2 = ⟨⟨100, 25⟩, ⟨116, 25⟩⟩ ∧
    specExtensionLine blockC2 socketC2 = ⟨⟨0, 10⟩, ⟨-16, 10⟩⟩ ∧
    blockC2.socket_start_line socketC2 ≠ specExtensionLine blockC2 socketC2 := by
  have h1 : blockC2.socket_start_line socketC2 = ⟨⟨100, 25⟩, ⟨116, 25⟩⟩ := by
    simp [Block.socket_start_line, blockC2, socketC2, Globals.InvisibleLabel,
      Globals.GridSpacing, QPointF.add]
    norm_num
  have h2 : specExtensionLine blockC2 socketC2 = ⟨⟨0, 10⟩, ⟨-16, 10⟩⟩ := by
    simp [specExtensionLine, Socket.direction, blockC2, socketC2,
      Globals.GridSpacing, QPointF.add]
    norm_num
  refine ⟨by decide, h1, h2, ?_⟩
  rw [h1, h2]
  simp only [ne_eq, QLineF.mk.injEq, QPointF.mk.injEq]
  norm_num

/-- C3 (counterexample): in the two-block scenario the single produced
horizontal segment has offset 168 — the gap between the extension points
(116,25) and (284,25) — not 100 as the claim states. -/
theorem C3_counterexample :
    netC3.adjust_connector connectorAB = Except.ok connectorAB2 ∧
    connectorAB2.m_segments = [⟨Orientation.horizontal, 168⟩] ∧
    (168 : ℚ) ≠ 100 := by
  refine ⟨?_, rfl, by norm_num⟩
  simp [Network.adjust_connector, Network.lookup_block_and_socket, splitFlatName,
    pyStrip, stripChars, netC3, blockA, blockB, connectorAB, connectorAB2,
    socketAOut, socketBIn, Block.socket_start_line, Globals.InvisibleLabel,
    Globals.GridSpacing, Globals.near_zero, QPointF.add, sumDir, addToFirstOrAppend]
  norm_num

/-- C3 (amended): in the two-block scenario `adjust_connector` produces
exactly one segment, horizontal, whose offset 168 equals the horizontal gap
between the two extension points (116,25) and (284,25). -/
theorem C3_amended :
    netC3.adjust_connector connectorAB = Except.ok connectorAB2 ∧
    connectorAB2.m_segments = [⟨Orientation.horizontal, 168⟩] ∧
    (blockB.socket_start_line socketBIn).p2.x -
      (blockA.socket_start_line socketAOut).p2.x = 168 := by
  refine ⟨?_, rfl, ?_⟩
  · simp [Network.adjust_connector, Network.lookup_block_and_socket, splitFlatName,
      pyStrip, stripChars, netC3, blockA, blockB, connectorAB, connectorAB2,
      socketAOut, socketBIn, Block.socket_start_line, Globals.InvisibleLabel,
      Globals.GridSpacing, Globals.near_zero, QPointF.add, sumDir, addToFirstOrAppend]
    norm_num
  · simp [Block.socket_start_line, blockA, blockB, socketAOut, socketBIn,
      Globals.InvisibleLabel, Globals.GridSpacing, QPointF.add]
    norm_num

/-- C10: socket equality is by name only — two sockets compare equal exactly
when their names agree, independent of position, orientation and inlet flag;
comparing against a string compares the socket's name; in particular two
sockets differing in every geometric field but sharing a name are equal. -/
theorem C10_socket_equality :
    (∀ s1 s2 : Socket, Socket.eqSocket s1 s2 = true ↔ s1.m_name = s2.m_name) ∧
    (∀ (s : Socket) (str : String), Socket.eqString s str = true ↔ s.m_name = str) ∧
    Socket.eqSocket ⟨"n", ⟨0, 0⟩, Orientation.horizontal, true⟩
      ⟨"n", ⟨5, 7⟩, Orientation.vertical, false⟩ = true := by
  refine ⟨fun s1 s2 => ?_, fun s str => ?_, ?_⟩ <;>
    simp [Socket.eqSocket, Socket.eqString]

/-- Fact that `near_zero 0` holds: a zero residual is always skipped. -/
theorem near_zero_zero : Globals.near_zero 0 = true := by
  simp [Globals.near_zero, Globals.GridSpacing]

/-- Adding `delta` to the first segment of direction `d` (or appending one)
raises the direction-`d` offset sum by exactly `delta`. -/
theorem sumDir_aoa_same (d : Orientation) (delta : ℚ) (l : List Segment) :
    sumDir d (addToFirstOrAppend d delta l) = sumDir d l + delta := by
  induction l with
  | nil => simp [addToFirstOrAppend, sumDir]
  | cons s rest ih =>
    by_cases h : s.m_direction = d
    · simp [addToFirstOrAppend, h, sumDir] <;> ring
    · simp only [addToFirstOrAppend, if_neg h, sumDir, if_neg h, ih] <;> ring

/-- Correcting axis `d2` leaves the offset sum of the other axis unchanged. -/
theorem sumDir_aoa_other (d d2 : Orientation) (delta : ℚ) (l : List Segment)
    (hne : d ≠ d2) : sumDir d (addToFirstOrAppend d2 delta l) = sumDir d l := by
  induction l with
  | nil => simp [addToFirstOrAppend, sumDir, Ne.symm hne]
  | cons s rest ih =>
    by_cases h : s.m_direction = d2
    · have hd : s.m_direction ≠ d := by rw [h]; exact Ne.symm hne
      simp [addToFirstOrAppend, h, sumDir, hd, Ne.symm hne]
    · simp only [addToFirstOrAppend, if_neg h, sumDir, ih]

/-- The correction step only ever appends: the direction list of the result
is the original direction list plus at most one trailing entry. -/
theorem aoa_map_dir (d : Orientation) (delta : ℚ) (l : List Segment) :
    ∃ t, (addToFirstOrAppend d delta l).map Segment.m_direction =
      l.map Segment.m_direction ++ t ∧ t.length ≤ 1 := by
  induction l with
  | nil => exact ⟨[d], by simp [addToFirstOrAppend], by simp⟩
  | cons s rest ih =>
    by_cases h : s.m_direction = d
    · exact ⟨[], by simp [addToFirstOrAppend, h], by simp⟩
    · obtain ⟨t, ht, hl⟩ := ih
      exact ⟨t, by simp [addToFirstOrAppend, h, ht], hl⟩

/-- The correction step never shortens the segment list. -/
theorem aoa_length_ge (d : Orientation) (delta : ℚ) (l : List Segment) :
    l.length ≤ (addToFirstOrAppend d delta l).length := by
  obtain ⟨t, ht, _⟩ := aoa_map_dir d delta l
  have := congrArg List.length ht
  simp only [List.length_map, List.length_append] at this
  omega

/-- Entries other than the first segment of the corrected axis are untouched
by the correction step. -/
theorem aoa_getD (d : Orientation) (delta : ℚ) (l : List Segment) (i : ℕ)
    (dflt : Segment) (h : i < l.length) (hi : i ≠ firstDirIdx d l) :
    (addToFirstOrAppend d delta l).getD i dflt = l.getD i dflt := by
  induction l generalizing i with
  | nil => simp at h
  | cons s rest ih =>
    by_cases hs : s.m_direction = d
    · cases i with
      | zero => exact absurd (by simp [firstDirIdx, hs]) (Ne.symm hi)
      | succ n => simp [addToFirstOrAppend, hs, List.getD]
    · cases i with
      | zero => simp [addToFirstOrAppend, hs, List.getD]
      | succ n =>
        have hn : n < rest.length := by simpa using h
        have hni : n ≠ firstDirIdx d rest := by
          intro he
          exact hi (by simp [firstDirIdx, hs, he])
        simp only [addToFirstOrAppend, if_neg hs, List.getD_cons_succ]
        exact ih n hn hni

/-- Correcting the other axis does not move an index onto the first segment
of axis `d`: an index distinct from the first `d`-segment stays distinct
after a `d2`-correction. -/
theorem firstDirIdx_aoa_other (d d2 : Orientation) (delta : ℚ) (l : List Segment)
    (hne : d ≠ d2) (i : ℕ) (h : i < l.length) (hi : i ≠ firstDirIdx d l) :
    i ≠ firstDirIdx d (addToFirstOrAppend d2 delta l) := by
  induction l generalizing i with
  | nil => simp at h
  | cons s rest ih =>
    by_cases hs : s.m_direction = d2
    · have hd : s.m_direction ≠ d := by rw [hs]; exact Ne.symm hne
      have e1 : firstDirIdx d (addToFirstOrAppend d2 delta (s :: rest)) =
          firstDirIdx d rest + 1 := by
        simp [addToFirstOrAppend, hs, firstDirIdx, hd, Ne.symm hne]
      have e2 : firstDirIdx d (s :: rest) = firstDirIdx d rest + 1 := by
        simp [firstDirIdx, hd]
      rw [e1]
      rw [e2] at hi
      exact hi
    · by_cases hd : s.m_direction = d
      · have e1 : firstDirIdx d (addToFirstOrAppend d2 delta (s :: rest)) = 0 := by
          simp [addToFirstOrAppend, hs, firstDirIdx, hd, hne]
        have e2 : firstDirIdx d (s :: rest) = 0 := by simp [firstDirIdx, hd]
        rw [e1]
        rw [e2] at hi
        exact hi
      · have e1 : firstDirIdx d (addToFirstOrAppend d2 delta (s :: rest)) =
            firstDirIdx d (addToFirstOrAppend d2 delta rest) + 1 := by
          simp [addToFirstOrAppend, hs, firstDirIdx, hd]
        rw [e1]
        cases i with
        | zero => omega
        | succ n =>
          have hn : n < rest.length := by simpa using h
          have hni : n ≠ firstDirIdx d rest := by
            intro he
            exact hi (by simp [firstDirIdx, hd, he])
          have := ih n hn hni
          omega

/-- Unfolding lemma: `adjust_connector` applied to resolved sockets rewrites the segments to
`adjustedSegments` of the two extension-endpoint differences. -/
theorem adjust_connector_eq (net : Network) (c : Connector)
    (sb tb : Block) (ss ts : Socket)
    (hs : net.lookup_block_and_socket c.m_source_socket = Except.ok (sb, ss))
    (ht : net.lookup_block_and_socket c.m_target_socket = Except.ok (tb, ts)) :
    net.adjust_connector c =
      Except.ok { c with
        m_segments := adjustedSegments
            ((tb.socket_start_line ts).p2.x - (sb.socket_start_line ss).p2.x)
            ((tb.socket_start_line ts).p2.y - (sb.socket_start_line ss).p2.y)
            c.m_segments } := by
  simp only [Network.adjust_connector, hs, ht, adjustedSegments, axisCorrection]

/-- The corrected sum of the corrected axis. -/
theorem sumDir_axisCorrection_same (d : Orientation) (delta : ℚ) (l : List Segment) :
    sumDir d (axisCorrection d delta l) =
      if Globals.near_zero delta then sumDir d l else sumDir d l + delta := by
  by_cases h : Globals.near_zero delta = true
  · rw [axisCorrection, if_pos h, if_pos h]
  · rw [axisCorrection, if_neg h, if_neg h, sumDir_aoa_same]

/-- A correction leaves the other axis sum unchanged. -/
theorem sumDir_axisCorrection_other (d d2 : Orientation) (delta : ℚ)
    (l : List Segment) (hne : d ≠ d2) :
    sumDir d (axisCorrection d2 delta l) = sumDir d l := by
  by_cases h : Globals.near_zero delta = true
  · rw [axisCorrection, if_pos h]
  · rw [axisCorrection, if_neg h, sumDir_aoa_other _ _ _ _ hne]

/-- After correcting axis `d` by the residual `Dval - Sval`, the new residual
is within the grid epsilon. -/
theorem residual_closed (Dval Sval : ℚ) :
    Globals.near_zero (Dval -
      (if Globals.near_zero (Dval - Sval) then Sval else Sval + (Dval - Sval))) = true := by
  by_cases h : Globals.near_zero (Dval - Sval) = true
  · rw [if_pos h]
    exact h
  · rw [if_neg h]
    have e : Dval - (Sval + (Dval - Sval)) = 0 := by ring
    rw [e]
    exact near_zero_zero

/-- After adjustment the horizontal residual is within the grid epsilon. -/
theorem adjustedSegments_residual_h (dxTarget dyTarget : ℚ) (l : List Segment) :
    Globals.near_zero (dxTarget -
      sumDir Orientation.horizontal (adjustedSegments dxTarget dyTarget l)) = true := by
  rw [adjustedSegments, sumDir_axisCorrection_same,
    sumDir_axisCorrection_other _ _ _ _ (by simp)]
  exact residual_closed _ _

/-- After adjustment the vertical residual is within the grid epsilon. -/
theorem adjustedSegments_residual_v (dxTarget dyTarget : ℚ) (l : List Segment) :
    Globals.near_zero (dyTarget -
      sumDir Orientation.vertical (adjustedSegments dxTarget dyTarget l)) = true := by
  rw [adjustedSegments, sumDir_axisCorrection_other _ _ _ _ (by simp),
    sumDir_axisCorrection_same]
  exact residual_closed _ _

/-- A correction appends at most one segment and keeps the direction
sequence as a prefix. -/
theorem axisCorrection_map_dir (d : Orientation) (delta : ℚ) (l : List Segment) :
    ∃ t, (axisCorrection d delta l).map Segment.m_direction =
      l.map Segment.m_direction ++ t ∧ t.length ≤ 1 := by
  by_cases h : Globals.near_zero delta = true
  · exact ⟨[], by rw [axisCorrection, if_pos h]; simp, by simp⟩
  · rw [axisCorrection, if_neg h]
    exact aoa_map_dir d delta l

/-- A correction never shortens the list. -/
theorem axisCorrection_length_ge (d : Orientation) (delta : ℚ) (l : List Segment) :
    l.length ≤ (axisCorrection d delta l).length := by
  by_cases h : Globals.near_zero delta = true
  · rw [axisCorrection, if_pos h]
  · rw [axisCorrection, if_neg h]
    exact aoa_length_ge d delta l

/-- A correction leaves entries other than the first of its axis unchanged. -/
theorem axisCorrection_getD (d : Orientation) (delta : ℚ) (l : List Segment)
    (i : ℕ) (dflt : Segment) (h : i < l.length) (hi : i ≠ firstDirIdx d l) :
    (axisCorrection d delta l).getD i dflt = l.getD i dflt := by
  by_cases hz : Globals.near_zero delta = true
  · rw [axisCorrection, if_pos hz]
  · rw [axisCorrection, if_neg hz]
    exact aoa_getD d delta l i dflt h hi

/-- A correction of the other axis preserves being distinct from the first
segment of axis `d`. -/
theorem axisCorrection_firstDirIdx_other (d d2 : Orientation) (delta : ℚ)
    (l : List Segment) (hne : d ≠ d2) (i : ℕ) (h : i < l.length)
    (hi : i ≠ firstDirIdx d l) :
    i ≠ firstDirIdx d (axisCorrection d2 delta l) := by
  by_cases hz : Globals.near_zero delta = true
  · rw [axisCorrection, if_pos hz]
    exact hi
  · rw [axisCorrection, if_neg hz]
    exact firstDirIdx_aoa_other d d2 delta l hne i h hi

/-- Re-adjusting already-adjusted segments changes nothing: both residuals
are within the epsilon, so both corrections are skipped. -/
theorem adjustedSegments_idem (dxTarget dyTarget : ℚ) (l : List Segment) :
    adjustedSegments dxTarget dyTarget (adjustedSegments dxTarget dyTarget l) =
      adjustedSegments dxTarget dyTarget l := by
  have hx := adjustedSegments_residual_h dxTarget dyTarget l
  have hy := adjustedSegments_residual_v dxTarget dyTarget l
  conv_lhs => rw [adjustedSegments]
  rw [show axisCorrection Orientation.vertical
      (dyTarget - sumDir Orientation.vertical (adjustedSegments dxTarget dyTarget l))
      (adjustedSegments dxTarget dyTarget l) = adjustedSegments dxTarget dyTarget l from
    by rw [axisCorrection, if_pos hy]]
  rw [axisCorrection, if_pos hx]

/-- C1: when both socket references resolve, `adjust_connector` closes the
path: the horizontal and vertical offset sums of the result match the x- and
y-differences of the two extension-line endpoints up to the grid epsilon;
the original direction sequence is preserved with at most two segments
appended at the end (never inserted mid-path); and every original segment
other than the first of each axis is returned unchanged. -/
theorem C1_adjust_connector_closes (net : Network) (c c2 : Connector)
    (sb tb : Block) (ss ts : Socket)
    (hs : net.lookup_block_and_socket c.m_source_socket = Except.ok (sb, ss))
    (ht : net.lookup_block_and_socket c.m_target_socket = Except.ok (tb, ts))
    (hadj : net.adjust_connector c = Except.ok c2) :
    Globals.near_zero ((tb.socket_start_line ts).p2.x -
      (sb.socket_start_line ss).p2.x -
      sumDir Orientation.horizontal c2.m_segments) = true ∧
    Globals.near_zero ((tb.socket_start_line ts).p2.y -
      (sb.socket_start_line ss).p2.y -
      sumDir Orientation.vertical c2.m_segments) = true ∧
    (∃ t, c2.m_segments.map Segment.m_direction =
      c.m_segments.map Segment.m_direction ++ t ∧ t.length ≤ 2) ∧
    (∀ i, i < c.m_segments.length →
      i ≠ firstDirIdx Orientation.vertical c.m_segments →
      i ≠ firstDirIdx Orientation.horizontal c.m_segments →
      c2.m_segments.getD i ⟨Orientation.horizontal, 0⟩ =
        c.m_segments.getD i ⟨Orientation.horizontal, 0⟩) := by
  have hc2 : c2 = { c with
      m_segments := adjustedSegments
          ((tb.socket_start_line ts).p2.x - (sb.socket_start_line ss).p2.x)
          ((tb.socket_start_line ts).p2.y - (sb.socket_start_line ss).p2.y)
          c.m_segments } :=
    (Except.ok.inj ((adjust_connector_eq net c sb tb ss ts hs ht).symm.trans hadj)).symm
  have hseg : c2.m_segments = adjustedSegments
      ((tb.socket_start_line ts).p2.x - (sb.socket_start_line ss).p2.x)
      ((tb.socket_start_line ts).p2.y - (sb.socket_start_line ss).p2.y)
      c.m_segments := by
    rw [hc2]
  refine ⟨?_, ?_, ?_, ?_⟩
  · rw [hseg]
    exact adjustedSegments_residual_h _ _ _
  · rw [hseg]
    exact adjustedSegments_residual_v _ _ _
  · obtain ⟨t1, h1, hl1⟩ := axisCorrection_map_dir Orientation.vertical
      ((tb.socket_start_line ts).p2.y - (sb.socket_start_line ss).p2.y -
        sumDir Orientation.vertical c.m_segments) c.m_segments
    obtain ⟨t2, h2, hl2⟩ := axisCorrection_map_dir Orientation.horizontal
      ((tb.socket_start_line ts).p2.x - (sb.socket_start_line ss).p2.x -
        sumDir Orientation.horizontal c.m_segments)
      (axisCorrection Orientation.vertical
        ((tb.socket_start_line ts).p2.y - (sb.socket_start_line ss).p2.y -
          sumDir Orientation.vertical c.m_segments) c.m_segments)
    refine ⟨t1 ++ t2, ?_, by simp only [List.length_append]; omega⟩
    rw [hseg, adjustedSegments, h2, h1, List.append_assoc]
  · intro i hi hiv hih
    have hlen : i < (axisCorrection Orientation.vertical
        ((tb.socket_start_line ts).p2.y - (sb.socket_start_line ss).p2.y -
          sumDir Orientation.vertical c.m_segments) c.m_segments).length :=
      lt_of_lt_of_le hi (axisCorrection_length_ge _ _ _)
    have hidx : i ≠ firstDirIdx Orientation.horizontal
        (axisCorrection Orientation.vertical
          ((tb.socket_start_line ts).p2.y - (sb.socket_start_line ss).p2.y -
            sumDir Orientation.vertical c.m_segments) c.m_segments) :=
      axisCorrection_firstDirIdx_other _ _ _ _ (by simp) i hi hih
    rw [hseg, adjustedSegments, axisCorrection_getD _ _ _ _ _ hlen hidx,
      axisCorrection_getD _ _ _ _ _ hi hiv]

/-- C7: `adjust_connector` is idempotent — a second call on the adjusted
connector, with unchanged blocks, returns it unchanged. -/
theorem C7_adjust_connector_idempotent (net : Network) (c c2 : Connector)
    (h : net.adjust_connector c = Except.ok c2) :
    net.adjust_connector c2 = Except.ok c2 := by
  rcases hs : net.lookup_block_and_socket c.m_source_socket with e | ⟨sb, ss⟩
  · rw [Network.adjust_connector, hs] at h
    simp at h
  rcases ht : net.lookup_block_and_socket c.m_target_socket with e | ⟨tb, ts⟩
  · rw [Network.adjust_connector] at h
    rw [hs] at h
    simp only [ht] at h
    simp at h
  have hc2 : c2 = { c with
      m_segments := adjustedSegments
          ((tb.socket_start_line ts).p2.x - (sb.socket_start_line ss).p2.x)
          ((tb.socket_start_line ts).p2.y - (sb.socket_start_line ss).p2.y)
          c.m_segments } :=
    (Except.ok.inj ((adjust_connector_eq net c sb tb ss ts hs ht).symm.trans h)).symm
  subst hc2
  have happ := adjust_connector_eq net
    { c with
      m_segments := adjustedSegments
          ((tb.socket_start_line ts).p2.x - (sb.socket_start_line ss).p2.x)
          ((tb.socket_start_line ts).p2.y - (sb.socket_start_line ss).p2.y)
          c.m_segments } sb tb ss ts hs ht
  rw [happ]
  simp [adjustedSegments_idem]

/-- C2 (amended): for every non-helper block the extension line is a pure
function of the block geometry and the socket's orientation and inlet flag —
it ignores the socket's stored position entirely. It starts at the midpoint
of the edge selected by orientation and inlet (Horizontal+inlet: left edge,
Horizontal+outlet: right edge, Vertical+inlet: top edge, Vertical+outlet:
bottom edge) and extends two grid cells outward. -/
theorem C2_amended (b : Block) (s : Socket)
    (h : b.m_name ≠ Globals.InvisibleLabel) :
    (∀ t : Socket, t.m_orientation = s.m_orientation → t.m_inlet = s.m_inlet →
      b.socket_start_line t = b.socket_start_line s) ∧
    (s.m_orientation = Orientation.horizontal → s.m_inlet = true →
      b.socket_start_line s =
        ⟨⟨b.m_pos.x, b.m_size.height / 2 + b.m_pos.y⟩,
          ⟨b.m_pos.x - 2 * Globals.GridSpacing, b.m_size.height / 2 + b.m_pos.y⟩⟩) ∧
    (s.m_orientation = Orientation.horizontal → s.m_inlet = false →
      b.socket_start_line s =
        ⟨⟨b.m_size.width + b.m_pos.x, b.m_size.height / 2 + b.m_pos.y⟩,
          ⟨b.m_size.width + 2 * Globals.GridSpacing + b.m_pos.x,
            b.m_size.height / 2 + b.m_pos.y⟩⟩) ∧
    (s.m_orientation = Orientation.vertical → s.m_inlet = true →
      b.socket_start_line s =
        ⟨⟨b.m_size.width / 2 + b.m_pos.x, b.m_pos.y⟩,
          ⟨b.m_size.width / 2 + b.m_pos.x, b.m_pos.y - 2 * Globals.GridSpacing⟩⟩) ∧
    (s.m_orientation = Orientation.vertical → s.m_inlet = false →
      b.socket_start_line s =
        ⟨⟨b.m_size.width / 2 + b.m_pos.x, b.m_size.height + b.m_pos.y⟩,
          ⟨b.m_size.width / 2 + b.m_pos.x,
            b.m_size.height + 2 * Globals.GridSpacing + b.m_pos.y⟩⟩) := by
  refine ⟨fun t hto hti => ?_, fun ho hi => ?_, fun ho hi => ?_,
    fun ho hi => ?_, fun ho hi => ?_⟩
  · simp only [Block.socket_start_line, if_neg h, hto, hti]
  all_goals
    simp [Block.socket_start_line, h, ho, hi, QPointF.add, QLineF.mk.injEq,
      QPointF.mk.injEq, Globals.GridSpacing]
  all_goals norm_num
  all_goals ring

/-- C2 witness: the amended statement evaluated at the concrete outlet socket
of `blockC2`. -/
theorem C2_amended_witness :
    blockC2.m_name ≠ Globals.InvisibleLabel ∧
    blockC2.socket_start_line socketC2 =
      ⟨⟨blockC2.m_size.width + blockC2.m_pos.x,
          blockC2.m_size.height / 2 + blockC2.m_pos.y⟩,
        ⟨blockC2.m_size.width + 2 * Globals.GridSpacing + blockC2.m_pos.x,
          blockC2.m_size.height / 2 + blockC2.m_pos.y⟩⟩ := by
  have h : blockC2.m_name ≠ Globals.InvisibleLabel := by decide
  exact ⟨h, (C2_amended blockC2 socketC2 h).2.2.1 rfl rfl⟩

/-- C1 witness: the closure property evaluated on the two-block scenario. -/
theorem C1_witness :
    netC3.adjust_connector connectorAB = Except.ok connectorAB2 ∧
    Globals.near_zero ((blockB.socket_start_line socketBIn).p2.x -
      (blockA.socket_start_line socketAOut).p2.x -
      sumDir Orientation.horizontal connectorAB2.m_segments) = true := by
  have hs : netC3.lookup_block_and_socket connectorAB.m_source_socket =
      Except.ok (blockA, socketAOut) := by
    simp [Network.lookup_block_and_socket, splitFlatName, pyStrip, stripChars,
      netC3, blockA, blockB, connectorAB, socketAOut]
  have ht : netC3.lookup_block_and_socket connectorAB.m_target_socket =
      Except.ok (blockB, socketBIn) := by
    simp [Network.lookup_block_and_socket, splitFlatName, pyStrip, stripChars,
      netC3, blockA, blockB, connectorAB, socketBIn]
  have hadj : netC3.adjust_connector connectorAB = Except.ok connectorAB2 := by
    simp [Network.adjust_connector, Network.lookup_block_and_socket, splitFlatName,
      pyStrip, stripChars, netC3, blockA, blockB, connectorAB, connectorAB2,
      socketAOut, socketBIn, Block.socket_start_line, Globals.InvisibleLabel,
      Globals.GridSpacing, Globals.near_zero, QPointF.add, sumDir, addToFirstOrAppend]
    norm_num
  exact ⟨hadj, (C1_adjust_connector_closes netC3 connectorAB connectorAB2
    blockA blockB socketAOut socketBIn hs ht hadj).1⟩

/-- C7 witness: idempotence evaluated on the two-block scenario. -/
theorem C7_witness :
    netC3.adjust_connector connectorAB2 = Except.ok connectorAB2 := by
  have hadj : netC3.adjust_connector connectorAB = Except.ok connectorAB2 := by
    simp [Network.adjust_connector, Network.lookup_block_and_socket, splitFlatName,
      pyStrip, stripChars, netC3, blockA, blockB, connectorAB, connectorAB2,
      socketAOut, socketBIn, Block.socket_start_line, Globals.InvisibleLabel,
      Globals.GridSpacing, Globals.near_zero, QPointF.add, sumDir, addToFirstOrAppend]
    norm_num
  exact C7_adjust_connector_idempotent netC3 connectorAB connectorAB2 hadj

/-- C4 (counterexample): `adjust_connectors` on `netC4` re-raises the first
connector's resolution failure and returns with every connector — including
the perfectly adjustable second one — unmodified, so the remaining
connectors are not processed. -/
theorem C4_counterexample :
    netC4.adjust_connectors = (netC4, some "Invalid flat name.") ∧
    netC4.adjust_connector connectorAB = Except.ok connectorAB2 ∧
    connectorAB2 ≠ connectorAB := by
  have hbad : netC4.adjust_connector connectorBad =
      Except.error "Invalid flat name." := by
    simp [Network.adjust_connector, Network.lookup_block_and_socket, splitFlatName,
      pyStrip, stripChars, netC4, blockA, blockB, connectorBad]
  refine ⟨?_, ?_, ?_⟩
  · have hgo : netC4.adjust_connectors_go [connectorBad, connectorAB] =
        ([connectorBad, connectorAB], some "Invalid flat name.") := by
      simp only [Network.adjust_connectors_go, hbad]
    have hconn : netC4.m_connectors = [connectorBad, connectorAB] := rfl
    simp only [Network.adjust_connectors, hconn, hgo]
    rfl
  · simp [Network.adjust_connector, Network.lookup_block_and_socket, splitFlatName,
      pyStrip, stripChars, netC4, blockA, blockB, connectorAB, connectorAB2,
      socketAOut, socketBIn, Block.socket_start_line, Globals.InvisibleLabel,
      Globals.GridSpacing, Globals.near_zero, QPointF.add, sumDir, addToFirstOrAppend]
    norm_num
  · simp [connectorAB, connectorAB2]

/-- C4 (amended): when a connector of the batch fails to resolve, the error
is reported and the whole batch aborts there: the failing connector and all
connectors after it are returned unprocessed. -/
theorem C4_amended (net : Network) (c : Connector) (rest : List Connector)
    (e : String) (h : net.adjust_connector c = Except.error e) :
    net.adjust_connectors_go (c :: rest) = (c :: rest, some e) := by
  simp [Network.adjust_connectors_go, h]

/-- C4 witness: the amended batch-abort statement at the concrete network. -/
theorem C4_amended_witness :
    netC4.adjust_connectors_go [connectorBad, connectorAB] =
      ([connectorBad, connectorAB], some "Invalid flat name.") := by
  have hbad : netC4.adjust_connector connectorBad =
      Except.error "Invalid flat name." := by
    simp [Network.adjust_connector, Network.lookup_block_and_socket, splitFlatName,
      pyStrip, stripChars, netC4, blockA, blockB, connectorBad]
  exact C4_amended netC4 connectorBad [connectorAB] "Invalid flat name." hbad

/-- On a list whose entries are all vertical, a left walk with a near-zero
vertical delta changes nothing and keeps both deltas. -/
theorem walkLeft_allV (i : ℕ) (segs : List Segment) (dx dy : ℚ)
    (hi : i ≤ segs.length)
    (hall : ∀ s ∈ segs, s.m_direction = Orientation.vertical)
    (hdy : Globals.near_zero dy = true) :
    walkLeft segs i dx dy = (segs, dx, dy) := by
  induction i with
  | zero => rfl
  | succ n ih =>
    have hn : n < segs.length := hi
    have hseg : (segs.getD n dfltSeg).m_direction = Orientation.vertical := by
      rw [List.getD_eq_getElem _ _ hn]
      exact hall _ (List.getElem_mem hn)
    cases hx : Globals.near_zero dx with
    | true =>
      simp [walkLeft, hx, hdy]
    | false =>
      simp only [walkLeft, hx, hdy, hseg]
      try simp
      exact ih (le_of_lt hn)

/-- On a list whose entries beyond `i` are all vertical, a right walk with a
near-zero vertical delta changes nothing and keeps both deltas. -/
theorem walkRight_allV (fuel : ℕ) (segs : List Segment) (i : ℕ) (dx dy : ℚ)
    (hall : ∀ j, i < j → j < segs.length →
      (segs.getD j dfltSeg).m_direction = Orientation.vertical)
    (hdy : Globals.near_zero dy = true) :
    walkRight fuel segs i dx dy = (segs, dx, dy) := by
  induction fuel generalizing i with
  | zero => rfl
  | succ f ih =>
    by_cases hlen : i + 1 < segs.length
    · have hseg : (segs.getD (i + 1) dfltSeg).m_direction = Orientation.vertical :=
        hall (i + 1) (by omega) hlen
      cases hx : Globals.near_zero dx with
      | true =>
        simp [walkRight, hlen, hx, hdy]
      | false =>
        simp only [walkRight, hlen, hx, hdy, hseg, if_true]
        try simp
        exact ih (i + 1) (fun j h1 h2 => hall j (by omega) h2)
    · simp [walkRight, hlen]

/-- The complete drag update when all existing segments are vertical, the
horizontal delta is not near zero and the vertical delta is zero: the new
horizontal segment is inserted at the head of the list (position 0), the
dragged index shifts up by one, and the compensating segment is appended. -/
theorem update_segments_insert_head (segs : List Segment) (idx : ℕ) (dx : ℚ)
    (hlen : idx < segs.length)
    (hall : ∀ s ∈ segs, s.m_direction = Orientation.vertical)
    (hdx : Globals.near_zero dx = false) :
    update_segments segs idx dx 0 =
      (⟨Orientation.horizontal, dx⟩ ::
        (segs ++ [⟨Orientation.horizontal, -dx⟩]), idx + 1) := by
  have hWL : walkLeft segs idx dx 0 = (segs, dx, 0) :=
    walkLeft_allV idx segs dx 0 (le_of_lt hlen) hall near_zero_zero
  have hsegidx : (segs.getD idx dfltSeg).m_direction = Orientation.vertical := by
    rw [List.getD_eq_getElem _ _ hlen]
    exact hall _ (List.getElem_mem hlen)
  have hIns : insertIfNeeded segs idx dx 0 =
      (⟨Orientation.horizontal, dx⟩ :: segs, idx + 1) := by
    simp only [insertIfNeeded, hdx, near_zero_zero, hsegidx]
    try simp
  have hWR : walkRight (⟨Orientation.horizontal, dx⟩ :: segs).length
      (⟨Orientation.horizontal, dx⟩ :: segs) (idx + 1) dx 0 =
      (⟨Orientation.horizontal, dx⟩ :: segs, dx, 0) := by
    apply walkRight_allV
    · intro j h1 h2
      match j, h1 with
      | k + 1, _ =>
        rw [List.getD_cons_succ]
        have hk : k < segs.length := by simpa using h2
        rw [List.getD_eq_getElem _ _ hk]
        exact hall _ (List.getElem_mem hk)
    · exact near_zero_zero
  simp only [update_segments, hWL, hIns, hWR, hdx, near_zero_zero]
  try simp

/-- C8 (amended): when a pending horizontal delta survives the left walk (no
horizontal segment to the left — here: all segments vertical) and the
dragged segment's direction does not match, the new segment of the needed
direction is inserted at position 0 of the list — the head, not immediately
before the dragged segment — and the dragged segment's index shifts up by
one; a compensating segment is appended at the tail. -/
theorem C8_update_segments_inserts_at_head (segs : List Segment) (idx : ℕ)
    (dx : ℚ) (hlen : idx < segs.length)
    (hall : ∀ s ∈ segs, s.m_direction = Orientation.vertical)
    (hdx : Globals.near_zero dx = false) :
    update_segments segs idx dx 0 =
      (⟨Orientation.horizontal, dx⟩ ::
        (segs ++ [⟨Orientation.horizontal, -dx⟩]), idx + 1) :=
  update_segments_insert_head segs idx dx hlen hall hdx

/-- C8 (counterexample): dragging the second of two vertical segments by
(8,0) inserts the new horizontal segment at position 0 — so the entry
immediately before the dragged segment (new index 2) is still the old
vertical segment, not the inserted one, refuting the claimed insertion
place; the index does shift from 1 to 2. -/
theorem C8_counterexample :
    update_segments [⟨Orientation.vertical, 10⟩, ⟨Orientation.vertical, 20⟩] 1 8 0 =
      ([⟨Orientation.horizontal, 8⟩, ⟨Orientation.vertical, 10⟩,
        ⟨Orientation.vertical, 20⟩, ⟨Orientation.horizontal, -8⟩], 2) ∧
    ((update_segments [⟨Orientation.vertical, 10⟩,
        ⟨Orientation.vertical, 20⟩] 1 8 0).1.getD (2 - 1) dfltSeg).m_direction =
      Orientation.vertical ∧
    Orientation.vertical ≠ Orientation.horizontal := by
  have hdx : Globals.near_zero 8 = false := by
    simp only [Globals.near_zero, Globals.GridSpacing, decide_eq_false_iff_not]
    norm_num
  have h := update_segments_insert_head
    [⟨Orientation.vertical, 10⟩, ⟨Orientation.vertical, 20⟩] 1 8
    (by norm_num) (by decide) hdx
  refine ⟨?_, ?_, by decide⟩
  · rw [h]
    rfl
  · rw [h]
    rfl

/-- C8 witness: the amended head-insertion statement at the concrete
two-vertical-segment connector. -/
theorem C8_witness :
    update_segments [⟨Orientation.vertical, 10⟩, ⟨Orientation.vertical, 20⟩] 1 8 0 =
      (⟨Orientation.horizontal, 8⟩ ::
        ([⟨Orientation.vertical, 10⟩, ⟨Orientation.vertical, 20⟩] ++
          [⟨Orientation.horizontal, -8⟩]), 1 + 1) := by
  have hdx : Globals.near_zero 8 = false := by
    simp only [Globals.near_zero, Globals.GridSpacing, decide_eq_false_iff_not]
    norm_num
  exact C8_update_segments_inserts_at_head
    [⟨Orientation.vertical, 10⟩, ⟨Orientation.vertical, 20⟩] 1 8
    (by norm_num) (by decide) hdx

/-- The socket loop succeeds exactly when the socket names are distinct and
avoid the seen set. -/
theorem checkSockets_ok_iff (l : List Socket) (seen : List String) :
    checkSockets l seen = Except.ok () ↔
      (l.map Socket.m_name).Nodup ∧ ∀ n ∈ l.map Socket.m_name, n ∉ seen := by
  induction l generalizing seen with
  | nil => simp [checkSockets]
  | cons s rest ih =>
    by_cases hm : s.m_name ∈ seen
    · simp only [checkSockets, if_pos hm, List.map_cons]
      constructor
      · intro h
        exact absurd h (by simp)
      · rintro ⟨h1, h2⟩
        exact absurd (h2 s.m_name (List.mem_cons_self _ _) hm) not_false
    · simp only [checkSockets, if_neg hm, ih, List.map_cons, List.nodup_cons]
      constructor
      · rintro ⟨h1, h2⟩
        have h3 : s.m_name ∉ rest.map Socket.m_name := fun hmem =>
          (h2 _ hmem) (List.mem_cons_self _ _)
        have h4 : ∀ n ∈ rest.map Socket.m_name, n ∉ seen := fun n hn hseen =>
          (h2 n hn) (List.mem_cons_of_mem _ hseen)
        refine ⟨⟨h3, h1⟩, ?_⟩
        intro n hn
        rcases List.mem_cons.mp hn with rfl | hn2
        · exact hm
        · exact h4 n hn2
      · rintro ⟨⟨h3, h4⟩, h2⟩
        refine ⟨h4, ?_⟩
        intro n hn hcons
        rcases List.mem_cons.mp hcons with rfl | hn2
        · exact h3 hn
        · exact (h2 n (List.mem_cons_of_mem _ hn)) hn2

/-- The block loop succeeds exactly when no block name holds a separator,
socket names are distinct within each block, and block names are distinct
and avoid the seen set. -/
theorem checkBlocks_ok_iff (l : List Block) (seen : List String) :
    checkBlocks l seen = Except.ok () ↔
      (∀ b ∈ l, b.m_name.toList.contains '.' = false ∧
        (b.m_sockets.map Socket.m_name).Nodup) ∧
      (l.map Block.m_name).Nodup ∧ ∀ n ∈ l.map Block.m_name, n ∉ seen := by
  induction l generalizing seen with
  | nil => simp [checkBlocks]
  | cons b rest ih =>
    by_cases hc : b.m_name.toList.contains '.' = true
    · simp only [checkBlocks]
      rw [if_pos hc]
      constructor
      · intro h
        exact absurd h (by simp)
      · rintro ⟨h1, _⟩
        have h2 := (h1 b (List.mem_cons_self _ _)).1
        rw [h2] at hc
        exact absurd hc (by simp)
    · have hc2 : b.m_name.toList.contains '.' = false := by simpa using hc
      by_cases hm : b.m_name ∈ seen
      · simp only [checkBlocks]
        rw [if_neg hc, if_pos hm]
        constructor
        · intro h
          exact absurd h (by simp)
        · rintro ⟨_, _, h2⟩
          exact ((h2 b.m_name (by simp)) hm).elim
      · rcases hsock : checkSockets b.m_sockets [] with e | u
        · simp only [checkBlocks]
          rw [if_neg hc, if_neg hm]
          simp only [hsock]
          constructor
          · intro h
            exact absurd h (by simp)
          · rintro ⟨h1, _⟩
            have h2 := (h1 b (List.mem_cons_self _ _)).2
            have h3 : checkSockets b.m_sockets [] = Except.ok () :=
              (checkSockets_ok_iff b.m_sockets []).mpr ⟨h2, by simp⟩
            rw [hsock] at h3
            exact absurd h3 (by simp)
        · cases u
          have hsocks : (b.m_sockets.map Socket.m_name).Nodup :=
            ((checkSockets_ok_iff b.m_sockets []).mp hsock).1
          simp only [checkBlocks]
          rw [if_neg hc, if_neg hm]
          simp only [hsock, ih, List.map_cons, List.nodup_cons]
          constructor
          · rintro ⟨h1, h2, h3⟩
            have h4 : b.m_name ∉ rest.map Block.m_name := fun hmem =>
              (h3 _ hmem) (List.mem_cons_self _ _)
            have h5 : ∀ n ∈ rest.map Block.m_name, n ∉ seen := fun n hn hseen =>
              (h3 n hn) (List.mem_cons_of_mem _ hseen)
            refine ⟨?_, ⟨h4, h2⟩, ?_⟩
            · intro b2 hb2
              rcases List.mem_cons.mp hb2 with rfl | hb3
              · exact ⟨hc2, hsocks⟩
              · exact h1 b2 hb3
            · intro n hn
              rcases List.mem_cons.mp hn with rfl | hn2
              · exact hm
              · exact h5 n hn2
          · rintro ⟨h1, ⟨h4, h2⟩, h3⟩
            refine ⟨fun b2 hb2 => h1 b2 (List.mem_cons_of_mem _ hb2), h2, ?_⟩
            intro n hn hcons
            rcases List.mem_cons.mp hcons with rfl | hn2
            · exact h4 hn
            · exact (h3 n (List.mem_cons_of_mem _ hn)) hn2

/-- The connector loop succeeds exactly when every connector resolves with
the right polarities and the raw target reference strings are distinct and
avoid the connected set. -/
theorem checkConnectors_ok_iff (net : Network) (l : List Connector)
    (connected : List String) :
    checkConnectors net l connected = Except.ok () ↔
      (∀ c ∈ l, resolvesToOutlet net c.m_source_socket ∧
        resolvesToInlet net c.m_target_socket) ∧
      (l.map Connector.m_target_socket).Nodup ∧
      ∀ t ∈ l.map Connector.m_target_socket, t ∉ connected := by
  induction l generalizing connected with
  | nil => simp [checkConnectors]
  | cons c rest ih =>
    rcases hsrc : net.lookup_block_and_socket c.m_source_socket with e | ⟨b1, s1⟩
    · simp only [checkConnectors, hsrc]
      constructor
      · intro h
        exact absurd h (by simp)
      · rintro ⟨h1, _⟩
        obtain ⟨pr, hpr, _⟩ := (h1 c (List.mem_cons_self _ _)).1
        rw [hsrc] at hpr
        exact absurd hpr (by simp)
    · rcases htgt : net.lookup_block_and_socket c.m_target_socket with e | ⟨b2, s2⟩
      · simp only [checkConnectors, hsrc, htgt]
        constructor
        · intro h
          exact absurd h (by simp)
        · rintro ⟨h1, _⟩
          obtain ⟨pr, hpr, _⟩ := (h1 c (List.mem_cons_self _ _)).2
          rw [htgt] at hpr
          exact absurd hpr (by simp)
      · by_cases hin1 : s1.m_inlet = true
        · simp only [checkConnectors, hsrc, htgt]
          rw [if_pos hin1]
          constructor
          · intro h
            exact absurd h (by simp)
          · rintro ⟨h1, _⟩
            obtain ⟨pr, hpr, hout⟩ := (h1 c (List.mem_cons_self _ _)).1
            rw [hsrc] at hpr
            obtain rfl := Except.ok.inj hpr
            rw [hin1] at hout
            exact absurd hout (by simp)
        · by_cases hin2 : s2.m_inlet = false
          · simp only [checkConnectors, hsrc, htgt]
            rw [if_neg hin1, if_pos hin2]
            constructor
            · intro h
              exact absurd h (by simp)
            · rintro ⟨h1, _⟩
              obtain ⟨pr, hpr, hinl⟩ := (h1 c (List.mem_cons_self _ _)).2
              rw [htgt] at hpr
              obtain rfl := Except.ok.inj hpr
              rw [hin2] at hinl
              exact absurd hinl (by simp)
          · have hout1 : s1.m_inlet = false := by simpa using hin1
            have hinl2 : s2.m_inlet = true := by simpa using hin2
            by_cases hmem : c.m_target_socket ∈ connected
            · simp only [checkConnectors, hsrc, htgt]
              rw [if_neg hin1, if_neg hin2, if_pos hmem]
              constructor
              · intro h
                exact absurd h (by simp)
              · rintro ⟨_, _, h2⟩
                exact ((h2 c.m_target_socket (by simp)) hmem).elim
            · simp only [checkConnectors, hsrc, htgt]
              rw [if_neg hin1, if_neg hin2, if_neg hmem]
              simp only [ih, List.map_cons, List.nodup_cons]
              constructor
              · rintro ⟨h1, h2, h3⟩
                have h4 : c.m_target_socket ∉ rest.map Connector.m_target_socket :=
                  fun hmm => (h3 _ hmm) (List.mem_cons_self _ _)
                have h5 : ∀ t ∈ rest.map Connector.m_target_socket, t ∉ connected :=
                  fun t ht hconn => (h3 t ht) (List.mem_cons_of_mem _ hconn)
                refine ⟨?_, ⟨h4, h2⟩, ?_⟩
                · intro c2 hc2
                  rcases List.mem_cons.mp hc2 with rfl | hc3
                  · exact ⟨⟨(b1, s1), hsrc, hout1⟩, ⟨(b2, s2), htgt, hinl2⟩⟩
                  · exact h1 c2 hc3
                · intro t ht
                  rcases List.mem_cons.mp ht with rfl | ht2
                  · exact hmem
                  · exact h5 t ht2
              · rintro ⟨h1, ⟨h4, h2⟩, h3⟩
                refine ⟨fun c2 hc2 => h1 c2 (List.mem_cons_of_mem _ hc2), h2, ?_⟩
                intro t ht hconn
                rcases List.mem_cons.mp hconn with rfl | ht2
                · exact h4 ht
                · exact (h3 t (List.mem_cons_of_mem _ ht)) ht2

/-- C5 (amended): `check_names` succeeds exactly when no block name contains
the separator, block names are unique, socket names are unique within each
block, every connector's source resolves to an outlet and its target to an
inlet, and no raw target reference string repeats. Empty block names are
accepted, and duplicate-inlet detection compares the reference strings, not
the resolved sockets. -/
theorem C5_check_names_iff (net : Network) :
    net.check_names = Except.ok () ↔
      ((∀ b ∈ net.m_blocks, b.m_name.toList.contains '.' = false) ∧
        (net.m_blocks.map Block.m_name).Nodup ∧
        (∀ b ∈ net.m_blocks, (b.m_sockets.map Socket.m_name).Nodup) ∧
        (∀ c ∈ net.m_connectors, resolvesToOutlet net c.m_source_socket) ∧
        (∀ c ∈ net.m_connectors, resolvesToInlet net c.m_target_socket) ∧
        (net.m_connectors.map Connector.m_target_socket).Nodup) := by
  rcases hb : checkBlocks net.m_blocks [] with e | u
  · simp only [Network.check_names, hb]
    constructor
    · intro h
      exact absurd h (by simp)
    · rintro ⟨h1, h2, h3, _⟩
      have hok : checkBlocks net.m_blocks [] = Except.ok () :=
        (checkBlocks_ok_iff net.m_blocks []).mpr
          ⟨fun b hbm => ⟨h1 b hbm, h3 b hbm⟩, h2, by simp⟩
      rw [hb] at hok
      exact absurd hok (by simp)
  · cases u
    have hbp := (checkBlocks_ok_iff net.m_blocks []).mp hb
    simp only [Network.check_names, hb, checkConnectors_ok_iff]
    constructor
    · rintro ⟨h1, h2, _⟩
      exact ⟨fun b hbm => (hbp.1 b hbm).1, hbp.2.1,
        fun b hbm => (hbp.1 b hbm).2,
        fun c hc => (h1 c hc).1, fun c hc => (h1 c hc).2, h2⟩
    · rintro ⟨_, _, _, h4, h5, h6⟩
      exact ⟨fun c hc => ⟨h4 c hc, h5 c hc⟩, h6, by simp⟩

/-- C5 (counterexample): the empty block name violates the claim's
validation conditions, yet `check_names` returns normally — the code never
checks for empty names, so the claimed "if and only if" fails. -/
theorem C5_counterexample :
    specNamesViolation netC5 ∧ netC5.check_names = Except.ok () := by
  constructor
  · exact Or.inl ⟨⟨"", ⟨0, 0⟩, ⟨100, 50⟩, [], none⟩, by simp [netC5], rfl⟩
  · rfl

/-- The in-scan merge preserves the list length. -/
theorem mergeAt_length (segs : List Segment) (i : ℕ) :
    (mergeAt segs i).length = segs.length := by
  rw [mergeAt]
  split
  · simp
  · rfl

/-- The scan preserves the list length. -/
theorem scanFrom_length (fuel : ℕ) (segs : List Segment) (i : ℕ) :
    (scanFrom fuel segs i).1.length = segs.length := by
  induction fuel generalizing segs i with
  | zero => rfl
  | succ f ih =>
    simp only [scanFrom]
    by_cases h1 : Globals.near_zero (((mergeAt segs i).getD i dfltSeg).m_offset) = true
    · rw [if_pos h1]
      exact mergeAt_length segs i
    · rw [if_neg h1]
      by_cases h2 : i + 1 < segs.length
      · rw [if_pos h2, ih]
        exact mergeAt_length segs i
      · rw [if_neg h2]
        exact mergeAt_length segs i

/-- The scan's final index stays below the (constant) list length. -/
theorem scanFrom_idx_lt (fuel : ℕ) (segs : List Segment) (i : ℕ)
    (h : i < segs.length) : (scanFrom fuel segs i).2 < segs.length := by
  induction fuel generalizing segs i with
  | zero => exact h
  | succ f ih =>
    simp only [scanFrom]
    by_cases h1 : Globals.near_zero (((mergeAt segs i).getD i dfltSeg).m_offset) = true
    · rw [if_pos h1]
      exact h
    · rw [if_neg h1]
      by_cases h2 : i + 1 < segs.length
      · rw [if_pos h2]
        have := ih (mergeAt segs i) (i + 1) (by rw [mergeAt_length]; exact h2)
        rw [mergeAt_length] at this
        exact this
      · rw [if_neg h2]
        exact h

/-- Every iteration of the while loop removes at least one segment, so with
fuel at least the length the loop ends on the empty list. -/
theorem mergeLoop_eq_nil (fuel : ℕ) : ∀ segs : List Segment,
    segs.length ≤ fuel → mergeLoop fuel segs = [] := by
  induction fuel with
  | zero =>
    intro segs h
    have h0 : segs.length = 0 := Nat.le_zero.mp h
    have : segs = [] := List.eq_nil_of_length_eq_zero h0
    rw [mergeLoop]
    exact this
  | succ f ih =>
    intro segs h
    simp only [mergeLoop]
    by_cases h0 : segs.length = 0
    · rw [if_pos h0]
      exact List.eq_nil_of_length_eq_zero h0
    · rw [if_neg h0]
      have hpos : 0 < segs.length := Nat.pos_of_ne_zero h0
      have hidx : (scanFrom segs.length segs 0).2 < segs.length :=
        scanFrom_idx_lt _ _ _ hpos
      have hlen1 : (scanFrom segs.length segs 0).1.length = segs.length :=
        scanFrom_length _ _ _
      rw [if_neg (show ¬ (scanFrom segs.length segs 0).2 =
        (scanFrom segs.length segs 0).1.length by omega)]
      by_cases hi0 : (scanFrom segs.length segs 0).2 = 0
      · rw [if_pos hi0]
        apply ih
        have : ((scanFrom segs.length segs 0).1.drop 1).length =
            (scanFrom segs.length segs 0).1.length - 1 := by simp
        omega
      · rw [if_neg hi0]
        by_cases hil : (scanFrom segs.length segs 0).2 =
            (scanFrom segs.length segs 0).1.length - 1
        · rw [if_pos hil]
          apply ih
          have : (scanFrom segs.length segs 0).1.dropLast.length =
              (scanFrom segs.length segs 0).1.length - 1 := by simp
          omega
        · rw [if_neg hil]
          apply ih
          have he1 : ((scanFrom segs.length segs 0).1.eraseIdx
              (scanFrom segs.length segs 0).2).length + 1 =
              (scanFrom segs.length segs 0).1.length :=
            List.length_eraseIdx_add_one (by omega)
          set s2 := (scanFrom segs.length segs 0).1.eraseIdx
            (scanFrom segs.length segs 0).2 with hs2
          split
          · have hi2 : (scanFrom segs.length segs 0).2 < s2.length := by omega
            have he2 : ((s2.set ((scanFrom segs.length segs 0).2 - 1)
                { s2.getD ((scanFrom segs.length segs 0).2 - 1) dfltSeg with
                  m_offset := (s2.getD ((scanFrom segs.length segs 0).2 - 1)
                    dfltSeg).m_offset + (s2.getD
                    ((scanFrom segs.length segs 0).2) dfltSeg).m_offset }).eraseIdx
                (scanFrom segs.length segs 0).2).length + 1 =
                (s2.set ((scanFrom segs.length segs 0).2 - 1) _).length :=
              List.length_eraseIdx_add_one (by simpa using hi2)
            simp only [List.length_set] at he2
            omega
          · omega

/-- C6: the merge pass always deletes every segment — the ported no-break
test `i == len(segment_items)` can never fire in Python (the loop variable
stops at `len - 1`), so each pass of the while loop pops a segment until the
list is empty; in particular a clean two-segment path with nothing to merge
and no near-zero offset is wiped out. The empty result satisfies the
claimed postconditions only vacuously. -/
theorem C6_merge_always_empties :
    (∀ segs : List Segment, merge_connector_segments segs = []) ∧
    merge_connector_segments
      [⟨Orientation.horizontal, 10⟩, ⟨Orientation.vertical, 5⟩] = [] := by
  have hall : ∀ segs : List Segment, merge_connector_segments segs = [] :=
    fun segs => mergeLoop_eq_nil segs.length segs le_rfl
  exact ⟨hall, hall _⟩

/-- Reading back a written socket restores it. -/
theorem socket_read_write (s : Socket) :
    Socket.read_xml (Socket.write_xml s) = s := rfl

/-- Reading back a written segment restores it. -/
theorem segment_read_write (s : Segment) :
    Segment.read_xml (Segment.write_xml s) = s := rfl

/-- Reading back a written block restores it. -/
theorem block_read_write (b : Block) :
    Block.read_xml (Block.write_xml b) = b := by
  have hcomp : Socket.read_xml ∘ Socket.write_xml = id := funext socket_read_write
  rcases b with ⟨name, pos, size, sockets, props⟩
  cases sockets with
  | nil => rfl
  | cons s rest =>
    simp [Block.read_xml, Block.write_xml, List.map_map, hcomp, socket_read_write]

/-- Reading back a written connector restores it. -/
theorem connector_read_write (c : Connector) :
    Connector.read_xml (Connector.write_xml c) = c := by
  have hcomp : Segment.read_xml ∘ Segment.write_xml = id := funext segment_read_write
  rcases c with ⟨name, src, tgt, segs⟩
  simp only [Connector.read_xml, Connector.write_xml]
  by_cases hsrc : src = "" <;> by_cases htgt : tgt = "" <;>
    cases segs <;>
      simp [hsrc, htgt, List.map_map, hcomp, segment_read_write]

/-- Reading back a written network restores it (on the modelled fields). -/
theorem network_read_write (net : Network) :
    Network.read_xml (Network.write_xml net) = net := by
  have hb : Block.read_xml ∘ Block.write_xml = id := funext block_read_write
  have hc : Connector.read_xml ∘ Connector.write_xml = id :=
    funext connector_read_write
  rcases net with ⟨blocks, connectors⟩
  simp only [Network.read_xml, Network.write_xml]
  cases blocks <;> cases connectors <;>
    simp [List.map_map, hb, hc, block_read_write, connector_read_write]

/-- C9: writing a network, reading the output back and writing again
reproduces the first write exactly — block positions, sizes, socket fields
and connector segment lists round-trip order-preservingly (the model is
exact, hence within any floating-point tolerance). -/
theorem C9_write_read_write (net : Network) :
    Network.write_xml (Network.read_xml (Network.write_xml net)) =
      Network.write_xml net := by
  rw [network_read_write]

end BlockModPy
